import Mathlib

/-!
Verification development for the `zoom_fork` custom component
(`src/custom_components/zoom_fork/common.py`).

The embedding below is a shallow model of the Python source:

* JSON values (the parsed webhook body) are modelled by the inductive
  type `Json`; Python dicts are association lists in insertion order.
* The webhook view `ZoomWebhookRequestView.post` is modelled by
  `webhook_post`.  The configured verification token set and the stored
  webhook secret are passed as explicit arguments, because the source
  reads them from mutable host state (`hass.data`, config entries).
  `headers.getall` with an absent `authorization` header raises
  `KeyError` in aiohttp; this is modelled by the `PyErr.keyError`
  result.
* Lines 146 to 150 of the source are syntactically invalid Python: the
  statement `return Response(status=HTTPStatus.OK)  # Added return here`
  was inserted at the indentation of the inner `if`, which orphans the
  following `else:` (CPython rejects the file with a SyntaxError, so the
  module cannot even be imported).  The embedding follows the only
  reading in which the `else:` branch (schema validation and event
  publishing) is live, pairing it with the inner `if` as in the
  documented design; under the alternative reading (the `else:` block is
  dead code) every theorem below that does not mention published events
  is unchanged, because in that branch both readings return HTTP 200
  with an empty body.
* `hmac.new(secret, msg, hashlib.sha256).hexdigest()` is modelled by a
  complete executable HMAC-SHA256 over byte lists (`hmac_sha256_hexdigest`),
  with UTF-8 encoding of both arguments.
* The contact list coordinator `_async_update_data` is modelled by
  `contact_list_update`.  The names `limit`, `BASE_URL`,
  `CONTACT_LIST_URL` and `HTTPUnauthorized` are referenced by the
  source but defined nowhere under `src/`; per the specification they
  are modelled as the optional result cap, a fixed endpoint, and the
  authorization-failure response of the API collaborator.  The outbound
  API is an oracle: a finite list of responses consumed one per call.
-/

/-- A parsed JSON value.  Objects are association lists in insertion
order (Python 3.7+ dicts preserve insertion order and, being parsed
JSON, contain no duplicate keys).  Numbers are modelled by `Int`; no
claim depends on fractional values. -/
inductive Json where
  | null : Json
  | bool (b : Bool) : Json
  | num (n : Int) : Json
  | str (s : String) : Json
  | arr (elems : List Json) : Json
  | obj (fields : List (String × Json)) : Json

/-- Python truthiness of a JSON value (`None`, `False`, `0`, `""`, `[]`
and `{}` are falsy). -/
def Json.truthy : Json → Bool
  | Json.null => false
  | Json.bool b => b
  | Json.num n => n != 0
  | Json.str s => s != ""
  | Json.arr elems => !elems.isEmpty
  | Json.obj fields => !fields.isEmpty

/-- `d.get(k)` on a parsed JSON object: the value of the first binding
of `k`, if any. -/
def jsonLookup : List (String × Json) → String → Option Json
  | [], _ => none
  | (k2, v) :: rest, k => if k2 == k then some v else jsonLookup rest k

/-- `d[k] = v` / `{**d, k: v}` on a Python dict: replace the value in
place if the key exists, otherwise append the new binding at the end. -/
def pyDictSet : List (String × Json) → String → Json → List (String × Json)
  | [], k, v => [(k, v)]
  | (k2, w) :: rest, k, v =>
      if k2 == k then (k2, v) :: rest else (k2, w) :: pyDictSet rest k v

/-- Reduce a value into the 32-bit word range. -/
def w32 (n : Nat) : Nat := n % 4294967296

/-- Right rotation of a 32-bit word. -/
def rotr (n x : Nat) : Nat := w32 ((x <<< (32 - n)) ||| (x >>> n))

def shaCh (x y z : Nat) : Nat := (x &&& y) ^^^ ((x ^^^ 4294967295) &&& z)

def shaMaj (x y z : Nat) : Nat := (x &&& y) ^^^ ((x &&& z) ^^^ (y &&& z))

def bigSigma0 (x : Nat) : Nat := rotr 2 x ^^^ rotr 13 x ^^^ rotr 22 x

def bigSigma1 (x : Nat) : Nat := rotr 6 x ^^^ rotr 11 x ^^^ rotr 25 x

def smallSigma0 (x : Nat) : Nat := rotr 7 x ^^^ rotr 18 x ^^^ (x >>> 3)

def smallSigma1 (x : Nat) : Nat := rotr 17 x ^^^ rotr 19 x ^^^ (x >>> 10)

/-- The SHA-256 round constants. -/
def shaK : List Nat :=
  [1116352408, 1899447441, 3049323471, 3921009573, 961987163, 1508970993,
   2453635748, 2870763221, 3624381080, 310598401, 607225278, 1426881987,
   1925078388, 2162078206, 2614888103, 3248222580, 3835390401, 4022224774,
   264347078, 604807628, 770255983, 1249150122, 1555081692, 1996064986,
   2554220882, 2821834349, 2952996808, 3210313671, 3336571891, 3584528711,
   113926993, 338241895, 666307205, 773529912, 1294757372, 1396182291,
   1695183700, 1986661051, 2177026350, 2456956037, 2730485921, 2820302411,
   3259730800, 3345764771, 3516065817, 3600352804, 4094571909, 275423344,
   430227734, 506948616, 659060556, 883997877, 958139571, 1322822218,
   1537002063, 1747873779, 1955562222, 2024104815, 2227730452, 2361852424,
   2428436474, 2756734187, 3204031479, 3329325298]

/-- The SHA-256 initial hash value. -/
def shaH0 : List Nat :=
  [1779033703, 3144134277, 1013904242, 2773480762,
   1359893119, 2600822924, 528734635, 1541459225]

/-- Big-endian bytes of `n`, `k` bytes wide. -/
def natToBytesBE : Nat → Nat → List Nat
  | 0, _ => []
  | k + 1, n => natToBytesBE k (n / 256) ++ [n % 256]

/-- Group bytes into big-endian 32-bit words (length a multiple of 4). -/
def bytesToWords : List Nat → List Nat
  | a :: b :: c :: d :: rest =>
      (a * 16777216 + b * 65536 + c * 256 + d) :: bytesToWords rest
  | _ => []

/-- Split a word list into 16-word blocks; the fuel argument bounds the
recursion so that the definition stays structurally recursive. -/
def toBlocksF : Nat → List Nat → List (List Nat)
  | 0, _ => []
  | _, [] => []
  | fuel + 1, ws => ws.take 16 :: toBlocksF fuel (ws.drop 16)

/-- Extend the 16-word message block to the 64-word schedule; called
with fuel 48. -/
def extendW : Nat → List Nat → List Nat
  | 0, w => w
  | fuel + 1, w =>
      let l := w.length
      let g := fun i => w.getD i 0
      extendW fuel
        (w ++ [w32 (smallSigma1 (g (l - 2)) + g (l - 7) +
                    smallSigma0 (g (l - 15)) + g (l - 16))])

/-- The SHA-256 working variables. -/
structure Hash8 where
  a : Nat
  b : Nat
  c : Nat
  d : Nat
  e : Nat
  f : Nat
  g : Nat
  h : Nat

/-- One SHA-256 round. -/
def compressStep (s : Hash8) (kw : Nat × Nat) : Hash8 :=
  let t1 := w32 (s.h + bigSigma1 s.e + shaCh s.e s.f s.g + kw.1 + kw.2)
  let t2 := w32 (bigSigma0 s.a + shaMaj s.a s.b s.c)
  ⟨w32 (t1 + t2), s.a, s.b, s.c, w32 (s.d + t1), s.e, s.f, s.g⟩

/-- Process one 512-bit block. -/
def compressBlock (hs : List Nat) (block : List Nat) : List Nat :=
  let w := extendW 48 block
  let g := fun i => hs.getD i 0
  let s0 : Hash8 := ⟨g 0, g 1, g 2, g 3, g 4, g 5, g 6, g 7⟩
  let s := (shaK.zip w).foldl compressStep s0
  [w32 (g 0 + s.a), w32 (g 1 + s.b), w32 (g 2 + s.c), w32 (g 3 + s.d),
   w32 (g 4 + s.e), w32 (g 5 + s.f), w32 (g 6 + s.g), w32 (g 7 + s.h)]

/-- SHA-256 of a byte list, as a 32-byte list. -/
def sha256 (msg : List Nat) : List Nat :=
  let padZeros := (119 - msg.length % 64) % 64
  let padded := msg ++ 128 :: List.replicate padZeros 0 ++
    natToBytesBE 8 (msg.length * 8)
  let ws := bytesToWords padded
  let hFin := (toBlocksF ws.length ws).foldl compressBlock shaH0
  (hFin.map (natToBytesBE 4)).flatten

/-- HMAC-SHA256 over byte lists (RFC 2104 with a 64-byte block). -/
def hmacSha256 (key msg : List Nat) : List Nat :=
  let k0 := if key.length > 64 then sha256 key else key
  let kPad := k0 ++ List.replicate (64 - k0.length) 0
  let ipad := kPad.map (fun b => b ^^^ 54)
  let opad := kPad.map (fun b => b ^^^ 92)
  sha256 (opad ++ sha256 (ipad ++ msg))

/-- UTF-8 encoding of one character. -/
def utf8Char (c : Char) : List Nat :=
  let n := c.toNat
  if n < 128 then [n]
  else if n < 2048 then [192 ||| (n >>> 6), 128 ||| (n &&& 63)]
  else if n < 65536 then
    [224 ||| (n >>> 12), 128 ||| ((n >>> 6) &&& 63), 128 ||| (n &&& 63)]
  else
    [240 ||| (n >>> 18), 128 ||| ((n >>> 12) &&& 63),
     128 ||| ((n >>> 6) &&& 63), 128 ||| (n &&& 63)]

/-- `s.encode("utf-8")` as a byte list. -/
def utf8 (s : String) : List Nat := (s.data.map utf8Char).flatten

/-- Lower-case hex digit: 0 to 9 map to the digit characters, 10 to 15
map to the letters a to f. -/
def hexDigit (n : Nat) : Char :=
  if n < 10 then Char.ofNat (48 + n) else Char.ofNat (87 + n)

/-- Lower-case hex string of a byte list (`hexdigest`). -/
def bytesToHex (bs : List Nat) : String :=
  String.mk ((bs.map (fun b => [hexDigit (b / 16), hexDigit (b % 16)])).flatten)

/-- `hmac.new(secret.encode("utf-8"), plain.encode("utf-8"),
hashlib.sha256).hexdigest()` from the handshake branch of the source. -/
def hmac_sha256_hexdigest (secret plain : String) : String :=
  bytesToHex (hmacSha256 (utf8 secret) (utf8 plain))

/-- An aiohttp `web.Response` as constructed by the handler: a status
code, an optional JSON body (`none` is an empty body; `json.dumps` is
abstracted to the JSON value it serializes, in dict insertion order)
and an optional content type. -/
structure Response where
  status : Nat
  body : Option Json
  content_type : Option String

/-- An event published on the host event bus by `hass.bus.async_fire`. -/
structure FiredEvent where
  name : String
  payload : List (String × Json)

/-- An inbound webhook request: the list of all `Authorization` header
values in order (aiohttp header names are case insensitive; the empty
list means the header is absent) and the parsed JSON body (`none` means
`request.json()` raises, covering unparseable bodies). -/
structure Request where
  authHeaders : List String
  body : Option Json

/-- A Python exception escaping the handler. -/
inductive PyErr where
  | keyError : PyErr

/-- Modelled from the spec: `HA_ZOOM_EVENT`, the fixed event bus name,
is defined in `const.py`, which is not under `src/`; the claims treat
it as an opaque constant. -/
def HA_ZOOM_EVENT : String := "zoom_webhook"

/-- Modelled from the spec: `WEBHOOK_RESPONSE_SCHEMA` is defined in
`const.py`, which is not under `src/`.  Per the spec it validates an
open-shape mapping with a required event name and passes all fields
through unchanged; validation failure raises, which the handler
swallows. -/
def webhook_response_schema : Json → Option (List (String × Json))
  | Json.obj fields =>
      match jsonLookup fields "event" with
      | some (Json.str _) => some fields
      | _ => none
  | _ => none

/-- Truthiness of the extracted `payload.plainToken` value. -/
def plainTruthy : Option Json → Bool
  | some v => v.truthy
  | none => false

/-- Truthiness of the configured webhook secret. -/
def secretTruthy : Option String → Bool
  | some s => s != ""
  | none => false

/-- The `endpoint.url_validation` branch of the handler, applied to the
extracted `payload.plainToken` value: on `plain_token and secret_token`
it answers HTTP 200 with the `plainToken`/`encryptedToken` object and
content type `application/json`, otherwise HTTP 401 with an empty body.
A truthy non-string token makes `plain_token.encode` raise, which the
surrounding `try` turns into HTTP 200 with an empty body. -/
def handshake (secret_token : Option String) (plain : Option Json) :
    Response × List FiredEvent :=
  if plainTruthy plain && secretTruthy secret_token then
    match plain, secret_token with
    | some (Json.str s), some sec =>
        (⟨200, some (Json.obj
            [("plainToken", Json.str s),
             ("encryptedToken", Json.str (hmac_sha256_hexdigest sec s))]),
          some "application/json"⟩, [])
    | _, _ => (⟨200, none, none⟩, [])
  else (⟨401, none, none⟩, [])

/-- Extraction of `data.get("payload", {}).get("plainToken")`:
`some plain` when the payload field is absent or an object, `none` when
it is present with a non-object value (then `.get` raises and the
handler answers HTTP 200 with an empty body). -/
def plainTokenOf (fields : List (String × Json)) : Option (Option Json) :=
  match jsonLookup fields "payload" with
  | none => some none
  | some (Json.obj pkvs) => some (jsonLookup pkvs "plainToken")
  | some _ => none

/-- The body of the `for token in tokens:` loop once a token is
accepted: parse the body, answer the URL-validation handshake, or
validate the schema and publish one event; any exception is swallowed
and answered with HTTP 200 and an empty body. -/
def handle_authorized (secret_token : Option String) (token : String)
    (body : Option Json) : Response × List FiredEvent :=
  match body with
  | none => (⟨200, none, none⟩, [])
  | some (Json.obj fields) =>
      match jsonLookup fields "event" with
      | some (Json.str ev) =>
          if ev == "endpoint.url_validation" then
            match plainTokenOf fields with
            | some plain => handshake secret_token plain
            | none => (⟨200, none, none⟩, [])
          else
            match webhook_response_schema (Json.obj fields) with
            | some status =>
                (⟨200, none, none⟩,
                 [⟨HA_ZOOM_EVENT, pyDictSet status "token" (Json.str token)⟩])
            | none => (⟨200, none, none⟩, [])
      | _ =>
          match webhook_response_schema (Json.obj fields) with
          | some status =>
              (⟨200, none, none⟩,
               [⟨HA_ZOOM_EVENT, pyDictSet status "token" (Json.str token)⟩])
          | none => (⟨200, none, none⟩, [])
  | some _ => (⟨200, none, none⟩, [])

/-- The guard `not verification_tokens or (token and token in
verification_tokens)` from line 128 of the source. -/
def authOk (vts : List String) (t : String) : Bool :=
  vts.isEmpty || (t != "" && vts.contains t)

/-- The first `Authorization` header value accepted by the guard, if
any (mirrors the order of the `for token in tokens:` loop). -/
def auth_matched (vts : List String) : List String → Option String
  | [] => none
  | t :: rest => if authOk vts t then some t else auth_matched vts rest

/-- The `for token in tokens:` loop of `ZoomWebhookRequestView.post`:
the first accepted token handles the request; if no token is accepted
the handler logs and answers HTTP 200 with an empty body. -/
def post_loop (vts : List String) (secret : Option String)
    (body : Option Json) : List String → Response × List FiredEvent
  | [] => (⟨200, none, none⟩, [])
  | t :: rest =>
      if authOk vts t then handle_authorized secret t body
      else post_loop vts secret body rest

/-- `ZoomWebhookRequestView.post`.  `vts` is the verification token set
from `hass.data`, `secret` the stored webhook secret from the first
config entry.  `headers.getall("authorization")` raises `KeyError` when
the request carries no `Authorization` header. -/
def webhook_post (vts : List String) (secret : Option String)
    (req : Request) : Except PyErr (Response × List FiredEvent) :=
  match req.authHeaders with
  | [] => Except.error PyErr.keyError
  | t :: rest => Except.ok (post_loop vts secret req.body (t :: rest))

/-- A contact item returned by the list endpoint (a JSON object). -/
abbrev Item := List (String × Json)

/-- Modelled from the spec: one response of the APIClient collaborator
to a contact list call.  `page` is a parsed body with a `contacts`
array and the optional `next_page_token` field; `unauthorized` is the
`HTTPUnauthorized` exception (the name is referenced but not defined
under `src/`); `failure` is any other transport or parsing error. -/
inductive ApiResult where
  | page (contacts : List Item) (next : Option Json) : ApiResult
  | unauthorized : ApiResult
  | failure : ApiResult

/-- The refresh failure type: `updateFailed` is the `UpdateFailed`
wrapper the coordinator raises; `raw` stands for an unconverted
transport or parsing exception (never produced by the coordinator). -/
inductive UpdErr where
  | updateFailed : UpdErr
  | raw (tag : Nat) : UpdErr

/-- `item.update({"contact_type": contact_type})`. -/
def stamp (ct : String) (it : Item) : Item :=
  pyDictSet it "contact_type" (Json.str ct)

/-- The loop guard `next_page_token or next_page_token is None`: `None`
(initial value or absent field) keeps looping; only a falsy non-null
token value (in practice the empty string) exits. -/
def tokCond : Option Json → Bool
  | none => true
  | some v => v.truthy

/-- The guard `not limit or len(contacts) < limit` (a falsy cap, `None`
or `0`, never stops the loop). -/
def capAllows : Option Nat → Nat → Bool
  | none, _ => true
  | some 0, _ => true
  | some (k + 1), n => n < k + 1

/-- `contacts[:limit] if limit else contacts`. -/
def pySlice : Option Nat → List Item → List Item
  | none, xs => xs
  | some 0, xs => xs
  | some (k + 1), xs => xs.take (k + 1)

/-- Outcome of the inner `while` loop for one partition: `done` carries
the accumulator, the unconsumed oracle and the number of calls made;
`unauth` is the `return []` branch; `errOut` is any other exception
(including a call the oracle cannot answer, modelled as transport
failure). -/
inductive InnerOut where
  | done (acc : List Item) (rest : List ApiResult) (calls : Nat) : InnerOut
  | unauth (calls : Nat) : InnerOut
  | errOut (calls : Nat) : InnerOut

/-- Add one API call to an inner outcome. -/
def bumpIn : InnerOut → InnerOut
  | InnerOut.done acc rest calls => InnerOut.done acc rest (calls + 1)
  | InnerOut.unauth calls => InnerOut.unauth (calls + 1)
  | InnerOut.errOut calls => InnerOut.errOut (calls + 1)

/-- The inner `while` loop of `_async_update_data` for one partition:
while the token and cap guards hold, call the list endpoint (consuming
one oracle response), stamp the returned contacts with the partition
and extend the accumulator, then continue with the returned
`next_page_token`. -/
def fetchPartition (limit : Option Nat) (ct : String) :
    List ApiResult → Option Json → List Item → InnerOut
  | [], tok, acc =>
      if tokCond tok && capAllows limit acc.length then InnerOut.errOut 1
      else InnerOut.done acc [] 0
  | r :: rest, tok, acc =>
      if tokCond tok && capAllows limit acc.length then
        match r with
        | ApiResult.unauthorized => InnerOut.unauth 1
        | ApiResult.failure => InnerOut.errOut 1
        | ApiResult.page cs nxt =>
            bumpIn (fetchPartition limit ct rest nxt (acc ++ cs.map (stamp ct)))
      else InnerOut.done acc (r :: rest) 0

/-- Outcome of the outer `for contact_type in self._contact_types:`
loop. -/
inductive OuterOut where
  | ok (acc : List Item) (calls : Nat) : OuterOut
  | unauth (calls : Nat) : OuterOut
  | errOut (calls : Nat) : OuterOut

/-- Add API calls to an outer outcome. -/
def addOut (n : Nat) : OuterOut → OuterOut
  | OuterOut.ok acc calls => OuterOut.ok acc (n + calls)
  | OuterOut.unauth calls => OuterOut.unauth (n + calls)
  | OuterOut.errOut calls => OuterOut.errOut (n + calls)

/-- The outer partition loop: run the inner loop per partition in
order, threading the accumulator and the remaining oracle. -/
def fetchPartitions (limit : Option Nat) :
    List String → List Item → List ApiResult → OuterOut
  | [], acc, _ => OuterOut.ok acc 0
  | ct :: cts, acc, oracle =>
      match fetchPartition limit ct oracle none acc with
      | InnerOut.done acc2 rest calls =>
          addOut calls (fetchPartitions limit cts acc2 rest)
      | InnerOut.unauth calls => OuterOut.unauth calls
      | InnerOut.errOut calls => OuterOut.errOut calls

/-- Result of one coordinator refresh together with the number of API
calls it made. -/
structure FetchOut where
  result : Except UpdErr (List Item)
  calls : Nat

/-- `ZoomContactListDataUpdateCoordinator._async_update_data`.  `limit`
is the optional result cap (a name the source references but never
defines; modelled from the spec as the configured cap), `contact_types`
the configured partitions (source default `["external"]`), `oracle`
the responses the API delivers in order.  `HTTPUnauthorized` yields
`return []` (a successful empty result); any other exception is
converted to `UpdateFailed` by the outer `try`. -/
def contact_list_update (limit : Option Nat) (contact_types : List String)
    (oracle : List ApiResult) : FetchOut :=
  match fetchPartitions limit contact_types [] oracle with
  | OuterOut.ok acc calls => ⟨Except.ok (pySlice limit acc), calls⟩
  | OuterOut.unauth calls => ⟨Except.ok [], calls⟩
  | OuterOut.errOut calls => ⟨Except.error UpdErr.updateFailed, calls⟩

/-- One API response for the profile fetch. -/
abbrev ProfileResp := Except Nat (List (String × Json))

/-- Result of one profile refresh. -/
structure ProfileOut where
  result : Except UpdErr (List (String × Json))
  calls : Nat

/-- `ZoomUserProfileDataUpdateCoordinator._async_update_data`: one call
to `async_get_my_user_profile`, returned whole on success; any
exception is converted to `UpdateFailed`. -/
def user_profile_update (resp : ProfileResp) : ProfileOut :=
  match resp with
  | Except.ok p => ⟨Except.ok p, 1⟩
  | Except.error _ => ⟨Except.error UpdErr.updateFailed, 1⟩

/-- Modelled from the spec: the host DataUpdateCoordinator (not part of
this repository) keeps the last successful data and marks the refresh
failed when the update method raises `UpdateFailed`. -/
def applyRefresh (prev : Option (List Item))
    (r : Except UpdErr (List Item)) : Option (List Item) × Bool :=
  match r with
  | Except.ok d => (some d, true)
  | Except.error _ => (prev, false)

/-- The externally configured address candidates the host URL helper
chooses from at one moment in time. -/
structure UrlCandidates where
  cloud : Option String
  external : Option String
  internal : Option String

/-- Modelled from the spec: `homeassistant.helpers.network.get_url`
(not part of this repository).  With `allow_internal=False` internal
addresses are never considered; with `prefer_cloud=True` a cloud-routed
address wins over a direct external one; `none` models the raised
`NoURLAvailableError`. -/
def get_url (cfg : UrlCandidates) (allow_internal prefer_cloud : Bool) :
    Option String :=
  let ext := if prefer_cloud then
      (cfg.cloud.orElse fun _ => cfg.external)
    else
      (cfg.external.orElse fun _ => cfg.cloud)
  match ext with
  | some u => some u
  | none => if allow_internal then cfg.internal else none

/-- Modelled from the spec: the fixed, protocol-defined OAuth2 callback
path suffix (`config_entry_oauth2_flow.AUTH_CALLBACK_PATH` of the host,
not part of this repository). -/
def AUTH_CALLBACK_PATH : String := "/auth/external/callback"

/-- `ZoomOAuth2Implementation.redirect_uri`: resolve the external URL
with `allow_internal=False, prefer_cloud=True` at the moment of access
and append the fixed callback path.  The property re-runs `get_url` on
every access, so the model takes the candidates of the current moment
as input. -/
def redirect_uri (cfg : UrlCandidates) : Option String :=
  (get_url cfg false true).map (fun u => u ++ AUTH_CALLBACK_PATH)

/-- A contact mapping containing the keys `first_name`, `last_name` and
`email` (values modelled as strings; Python truthiness of a string is
non-emptiness). -/
structure ContactRec where
  first_name : String
  last_name : String
  email : String

/-- `get_contact_name` from lines 51 to 61 of the source. -/
def get_contact_name (contact : ContactRec) : String :=
  let n0 := ""
  let n1 := if contact.first_name = "" then n0 else contact.first_name ++ " "
  let n2 := if contact.last_name = "" then n1 else n1 ++ contact.last_name ++ " "
  if n2 = "" then contact.email else n2 ++ "(" ++ contact.email ++ ")"

/-- One page the API delivers for a partition: the `contacts` array and
the value of the `next_page_token` field (`none` when absent). -/
structure PageSpec where
  contacts : List Item
  next : Option Json

/-- The oracle entry for one delivered page. -/
def toApi (p : PageSpec) : ApiResult := ApiResult.page p.contacts p.next

/-- A complete page run for one partition: at least one page, every
page before the last carries a token that keeps the loop going, and
the last page carries a token the loop guard rejects (a falsy non-null
value such as the empty string). -/
def wfRun : List PageSpec → Bool
  | [] => false
  | [p] => !(tokCond p.next)
  | p :: q :: rest => tokCond p.next && wfRun (q :: rest)

/-- The oracle for one partition run. -/
def runOracle (run : List PageSpec) : List ApiResult := run.map toApi

/-- All contacts of a run, stamped with the partition. -/
def stampedRun (ct : String) (run : List PageSpec) : List Item :=
  (run.map (fun p => p.contacts.map (stamp ct))).flatten

/-- The oracle for a list of partitions with their runs, in order. -/
def oracleOf (parts : List (String × List PageSpec)) : List ApiResult :=
  (parts.map (fun pr => runOracle pr.2)).flatten

/-- All contacts of all runs, stamped with their partitions, in
order. -/
def fullOf (parts : List (String × List PageSpec)) : List Item :=
  (parts.map (fun pr => stampedRun pr.1 pr.2)).flatten

/-! ## Supporting lemmas -/

theorem append_space_ne_empty (s : String) : s ++ " " ≠ "" := by
  intro h
  have h2 := congrArg String.length h
  simp [String.length_append] at h2
  exact absurd h2.2 (by decide)

theorem post_loop_eq_matched (vts : List String) (secret : Option String)
    (body : Option Json) (hdrs : List String) :
    post_loop vts secret body hdrs =
      (match auth_matched vts hdrs with
       | some t => handle_authorized secret t body
       | none => (⟨200, none, none⟩, [])) := by
  induction hdrs with
  | nil => rfl
  | cons t rest ih =>
      by_cases h : authOk vts t = true
      · simp [post_loop, auth_matched, h]
      · simp only [Bool.not_eq_true] at h
        simp [post_loop, auth_matched, h, ih]

theorem auth_matched_some_of (vts : List String) (hdrs : List String)
    (h : ∃ t ∈ hdrs, authOk vts t = true) :
    ∃ t, auth_matched vts hdrs = some t := by
  induction hdrs with
  | nil => simp at h
  | cons t rest ih =>
      by_cases ht : authOk vts t = true
      · exact ⟨t, by simp [auth_matched, ht]⟩
      · simp only [Bool.not_eq_true] at ht
        obtain ⟨u, hu, hu2⟩ := h
        rcases List.mem_cons.mp hu with rfl | hmem
        · rw [ht] at hu2; exact absurd hu2 (by simp)
        · obtain ⟨v, hv⟩ := ih ⟨u, hmem, hu2⟩
          exact ⟨v, by simp [auth_matched, ht, hv]⟩

theorem auth_matched_none_of (vts : List String) (hdrs : List String)
    (h : ∀ t ∈ hdrs, authOk vts t = false) :
    auth_matched vts hdrs = none := by
  induction hdrs with
  | nil => rfl
  | cons t rest ih =>
      simp [auth_matched, h t (by simp)]
      exact ih (fun u hu => h u (by simp [hu]))

theorem authOk_iff (vts : List String) (t : String) :
    authOk vts t = true ↔ vts = [] ∨ (t ≠ "" ∧ t ∈ vts) := by
  show (vts.isEmpty || (t != "" && List.elem t vts)) = true ↔ _
  simp [List.isEmpty_iff, bne_iff_ne, List.elem_iff]

/-! ## Claims about the webhook handler -/

/-- C1 (counterexample).  The claim states that whenever
`payload.plainToken` and the configured secret are both PRESENT the
handler answers HTTP 200 with the signed JSON body.  At the concrete
authenticated handshake request whose `plainToken` is present but equal
to the empty string (and with secret `"s3cret"` configured), the code
answers HTTP 401 with an empty body instead, because line 133 tests
Python truthiness (`if plain_token and secret_token`), not presence. -/
theorem c1_handshake_counterexample :
    webhook_post ["tok1"] (some "s3cret")
      ⟨["tok1"], some (Json.obj
        [("event", Json.str "endpoint.url_validation"),
         ("payload", Json.obj [("plainToken", Json.str "")])])⟩
      = Except.ok (⟨401, none, none⟩, []) ∧
    (Response.mk 401 none none) ≠ (Response.mk 200 (some (Json.obj
        [("plainToken", Json.str ""),
         ("encryptedToken", Json.str (hmac_sha256_hexdigest "s3cret" ""))]))
      (some "application/json")) :=
  ⟨rfl, fun h => absurd (congrArg Response.status h) (by decide)⟩

/-- C1 (amended).  For every authenticated webhook request whose body
is a JSON object with event `endpoint.url_validation` and whose
`payload` field is absent or an object: if `payload.plainToken` is a
non-empty string and the configured secret is a non-empty string, the
handler answers HTTP 200, content type `application/json`, with body
exactly `{plainToken, encryptedToken = hex(HMAC_SHA256(secret,
plain))}` and publishes nothing; if the extracted token or the secret
is missing or falsy, it answers HTTP 401 with an empty body.  The 200
response is a pure function of the pair (plain token, secret): the
right-hand side of the equation mentions nothing else. -/
theorem c1_handshake_amended (vts : List String) (secret : Option String)
    (hdrs : List String) (fields : List (String × Json)) (plain : Option Json)
    (hauth : ∃ t ∈ hdrs, authOk vts t = true)
    (hev : jsonLookup fields "event" = some (Json.str "endpoint.url_validation"))
    (hplain : plainTokenOf fields = some plain) :
    (∀ s sec, plain = some (Json.str s) → s ≠ "" → secret = some sec → sec ≠ "" →
      webhook_post vts secret ⟨hdrs, some (Json.obj fields)⟩ =
        Except.ok (⟨200, some (Json.obj
          [("plainToken", Json.str s),
           ("encryptedToken", Json.str (hmac_sha256_hexdigest sec s))]),
          some "application/json"⟩, []))
    ∧ ((plainTruthy plain && secretTruthy secret) = false →
      webhook_post vts secret ⟨hdrs, some (Json.obj fields)⟩ =
        Except.ok (⟨401, none, none⟩, [])) := by
  have hne : hdrs ≠ [] := by rintro rfl; simp at hauth
  obtain ⟨h1, hdrs2, rfl⟩ := List.exists_cons_of_ne_nil hne
  obtain ⟨tm, htm⟩ := auth_matched_some_of vts (h1 :: hdrs2) hauth
  have hpost : webhook_post vts secret ⟨h1 :: hdrs2, some (Json.obj fields)⟩ =
      Except.ok (handle_authorized secret tm (some (Json.obj fields))) := by
    simp [webhook_post, post_loop_eq_matched, htm]
  have hhand : handle_authorized secret tm (some (Json.obj fields)) =
      handshake secret plain := by
    simp [handle_authorized, hev, hplain]
  constructor
  · intro s sec hs hs2 hsec hsec2
    subst hs; subst hsec
    rw [hpost, hhand]
    have hg : (plainTruthy (some (Json.str s)) && secretTruthy (some sec)) = true := by
      have hp : plainTruthy (some (Json.str s)) = true := bne_iff_ne.mpr hs2
      have hq : secretTruthy (some sec) = true := bne_iff_ne.mpr hsec2
      rw [hp, hq]; rfl
    simp [handshake, hg]
  · intro hfalse
    rw [hpost, hhand]
    simp [handshake, hfalse]

/-- C1 (witness).  The amended theorem applied at the spec example:
token set `["tok1"]`, header `tok1`, secret `s3cret`, plain token
`abc`. -/
theorem c1_handshake_witness :
    (∃ t ∈ ["tok1"], authOk ["tok1"] t = true) ∧
    webhook_post ["tok1"] (some "s3cret")
      ⟨["tok1"], some (Json.obj
        [("event", Json.str "endpoint.url_validation"),
         ("payload", Json.obj [("plainToken", Json.str "abc")])])⟩
      = Except.ok (⟨200, some (Json.obj
          [("plainToken", Json.str "abc"),
           ("encryptedToken", Json.str (hmac_sha256_hexdigest "s3cret" "abc"))]),
          some "application/json"⟩, []) :=
  ⟨by decide,
   (c1_handshake_amended ["tok1"] (some "s3cret") ["tok1"]
      [("event", Json.str "endpoint.url_validation"),
       ("payload", Json.obj [("plainToken", Json.str "abc")])]
      (some (Json.str "abc")) (by decide) rfl rfl).1
     "abc" "s3cret" rfl (by decide) rfl (by decide)⟩

set_option maxRecDepth 4000 in
/-- The digest of the handshake example is reproducible by this
independent HMAC-SHA256 implementation, checked by kernel
evaluation. -/
theorem hmac_sha256_handshake_vector :
    hmac_sha256_hexdigest "s3cret" "abc" =
      "4f2f30aaf4a57bd60ab473c8e9c2cdfefc186723d4727ed6f31f04353c91389a" := by
  decide

/-- C2 (counterexample).  The claim states that with a non-empty token
set a request is authenticated as soon as SOME header value is a member
of the set.  With set `{""}` and sole header value `""` the value is a
member, yet the code answers with the unauthorized 200-empty response
and publishes nothing, because the guard on line 128 also requires the
token to be truthy (`token and token in verification_tokens`). -/
theorem c2_auth_counterexample :
    webhook_post [""] (some "s3cret")
      ⟨[""], some (Json.obj
        [("event", Json.str "endpoint.url_validation"),
         ("payload", Json.obj [("plainToken", Json.str "abc")])])⟩
      = Except.ok (⟨200, none, none⟩, []) ∧
    ("" ∈ ([""] : List String)) ∧ ([""] : List String) ≠ [] ∧
    (Response.mk 200 none none) ≠ (Response.mk 200 (some (Json.obj
        [("plainToken", Json.str "abc"),
         ("encryptedToken", Json.str (hmac_sha256_hexdigest "s3cret" "abc"))]))
      (some "application/json")) :=
  ⟨rfl, by decide, by decide,
   fun h => Option.noConfusion (congrArg Response.body h)⟩

/-- C2 (amended).  For every request with at least one `Authorization`
header value (with zero values the handler raises, see C4): the loop
accepts the first header value that is non-empty and a member of a
non-empty token set, or the first value of all when the set is empty;
the processed response is that of the accepted token; and when the set
is non-empty and no header value is both non-empty and a member, the
handler answers HTTP 200 with an empty body and publishes no event. -/
theorem c2_auth_amended (vts : List String) (secret : Option String)
    (hdrs : List String) (body : Option Json) :
    (hdrs ≠ [] →
      webhook_post vts secret ⟨hdrs, body⟩ = Except.ok
        (match auth_matched vts hdrs with
         | some t => handle_authorized secret t body
         | none => (⟨200, none, none⟩, [])))
    ∧ (vts ≠ [] →
        ((auth_matched vts hdrs).isSome = true ↔ ∃ t ∈ hdrs, t ≠ "" ∧ t ∈ vts))
    ∧ (vts = [] → hdrs ≠ [] → (auth_matched vts hdrs).isSome = true)
    ∧ (vts ≠ [] → (∀ t ∈ hdrs, ¬(t ≠ "" ∧ t ∈ vts)) → hdrs ≠ [] →
        webhook_post vts secret ⟨hdrs, body⟩ =
          Except.ok (⟨200, none, none⟩, [])) := by
  refine ⟨?_, ?_, ?_, ?_⟩
  · intro hne
    obtain ⟨h1, hdrs2, rfl⟩ := List.exists_cons_of_ne_nil hne
    simp [webhook_post, post_loop_eq_matched]
  · intro hvne
    induction hdrs with
    | nil => simp [auth_matched]
    | cons t rest ih =>
        by_cases ht : authOk vts t = true
        · have := (authOk_iff vts t).mp ht
          rcases this with h | h
          · exact absurd h hvne
          · simp [auth_matched, ht, h]
        · simp only [Bool.not_eq_true] at ht
          have hnot : ¬(t ≠ "" ∧ t ∈ vts) := fun hc => by
            have := (authOk_iff vts t).mpr (Or.inr hc)
            rw [ht] at this; exact absurd this (by simp)
          simp [auth_matched, ht, ih, hnot]
  · intro hv hne
    obtain ⟨h1, hdrs2, rfl⟩ := List.exists_cons_of_ne_nil hne
    have : authOk vts h1 = true := (authOk_iff vts h1).mpr (Or.inl hv)
    simp [auth_matched, this]
  · intro hvne hall hne
    obtain ⟨h1, hdrs2, rfl⟩ := List.exists_cons_of_ne_nil hne
    have hnone : auth_matched vts (h1 :: hdrs2) = none := by
      refine auth_matched_none_of vts _ (fun t htm => ?_)
      by_contra hx
      simp only [Bool.not_eq_false] at hx
      rcases (authOk_iff vts t).mp hx with h | h
      · exact absurd h hvne
      · exact absurd h (hall t htm)
    simp [webhook_post, post_loop_eq_matched, hnone]

/-- C2 (witness).  The amended theorem applied at set `["tok"]`,
headers `["bad", "tok"]` and a schema-valid body: the second header
matches, the request is processed as authenticated and one event
carrying the matched token is published. -/
theorem c2_auth_witness :
    (["bad", "tok"] : List String) ≠ [] ∧
    webhook_post ["tok"] (some "s")
      ⟨["bad", "tok"], some (Json.obj [("event", Json.str "meeting.updated")])⟩
      = Except.ok (⟨200, none, none⟩,
        [⟨HA_ZOOM_EVENT,
          [("event", Json.str "meeting.updated"), ("token", Json.str "tok")]⟩]) := by
  refine ⟨by decide, ?_⟩
  have h := (c2_auth_amended ["tok"] (some "s") ["bad", "tok"]
    (some (Json.obj [("event", Json.str "meeting.updated")]))).1 (by decide)
  rw [h]
  rfl

/-- C3 (code bug).  The claim describes the documented behavior: one
event per authenticated schema-valid non-handshake request, its payload
the validated fields plus the matched token.  The committed source
cannot do this: the `return` inserted at line 146 orphans the `else:`
on line 147, CPython rejects the module with a SyntaxError, and the
`async_fire` call on line 150 is dead code.  This theorem evaluates the
spec-intended reading of the handler (the embedding, which pairs the
`else:` with the inner `if`) at the failing input and shows it would
publish exactly the claimed event. -/
theorem c3_event_publish_intended :
    webhook_post ["tok"] (some "s")
      ⟨["tok"], some (Json.obj
        [("event", Json.str "meeting.started"),
         ("payload", Json.obj [("object", Json.str "x")])])⟩
      = Except.ok (⟨200, none, none⟩,
        [⟨HA_ZOOM_EVENT,
          [("event", Json.str "meeting.started"),
           ("payload", Json.obj [("object", Json.str "x")]),
           ("token", Json.str "tok")]⟩]) := rfl

/-- C4 (code bug).  The claim says the handler always returns an HTTP
response, including for requests with zero `Authorization` headers.
At such a request `headers.getall("authorization")` (line 121, no
default argument) raises `KeyError` before any branch is reached, so
the handler propagates an exception instead of answering 200. -/
theorem c4_zero_auth_headers_keyerror :
    webhook_post ["tok"] (some "s")
      ⟨[], some (Json.obj [("event", Json.str "meeting.started")])⟩
      = Except.error PyErr.keyError := rfl

/-! ## Supporting lemmas for the contact list coordinator -/

theorem fetchPartition_tok_stop (limit : Option Nat) (ct : String)
    (oracle : List ApiResult) (tok : Option Json) (acc : List Item)
    (h : tokCond tok = false) :
    fetchPartition limit ct oracle tok acc = InnerOut.done acc oracle 0 := by
  cases oracle <;> simp [fetchPartition, h]

theorem fetchPartition_cap_stop (limit : Option Nat) (ct : String)
    (oracle : List ApiResult) (tok : Option Json) (acc : List Item)
    (h : capAllows limit acc.length = false) :
    fetchPartition limit ct oracle tok acc = InnerOut.done acc oracle 0 := by
  cases oracle <;> simp [fetchPartition, h]

theorem fetchPartition_step (limit : Option Nat) (ct : String)
    (cs : List Item) (nxt : Option Json) (rest : List ApiResult)
    (tok : Option Json) (acc : List Item)
    (htok : tokCond tok = true) (hcap : capAllows limit acc.length = true) :
    fetchPartition limit ct (ApiResult.page cs nxt :: rest) tok acc =
      bumpIn (fetchPartition limit ct rest nxt (acc ++ cs.map (stamp ct))) := by
  simp [fetchPartition, htok, hcap]

theorem fetchPartition_wfRun (limit : Option Nat) (ct : String) :
    ∀ (run : List PageSpec), wfRun run = true →
    ∀ (tok : Option Json), tokCond tok = true →
    ∀ (acc : List Item) (extra : List ApiResult),
    ∃ acc2 rest2 m,
      fetchPartition limit ct (runOracle run ++ extra) tok acc =
        InnerOut.done acc2 rest2 m ∧
      ((acc2 = acc ++ stampedRun ct run ∧ rest2 = extra) ∨
       (∃ t, acc2 ++ t = acc ++ stampedRun ct run ∧
         capAllows limit acc2.length = false)) := by
  intro run
  induction run with
  | nil => intro h; simp [wfRun] at h
  | cons p rest ih =>
      intro hwf tok htok acc extra
      by_cases hcap : capAllows limit acc.length = true
      · cases rest with
        | nil =>
            have hnext : tokCond p.next = false := by
              simpa [wfRun] using hwf
            refine ⟨acc ++ stampedRun ct [p], extra, 1, ?_, Or.inl ⟨rfl, rfl⟩⟩
            simp [runOracle, fetchPartition, htok, hcap, toApi, bumpIn,
              stampedRun,
              fetchPartition_tok_stop limit ct extra p.next
                (acc ++ p.contacts.map (stamp ct)) hnext]
        | cons q rest2 =>
            have hnext : tokCond p.next = true := by
              simp [wfRun] at hwf; exact hwf.1
            have hwf2 : wfRun (q :: rest2) = true := by
              simp [wfRun] at hwf
              exact hwf.2
            obtain ⟨acc2, r2, m, heq, hcase⟩ :=
              ih hwf2 p.next hnext (acc ++ p.contacts.map (stamp ct)) extra
            refine ⟨acc2, r2, m + 1, ?_, ?_⟩
            · have horr : runOracle (p :: q :: rest2) ++ extra =
                  ApiResult.page p.contacts p.next ::
                    (runOracle (q :: rest2) ++ extra) := by
                simp [runOracle, toApi]
              rw [horr,
                fetchPartition_step limit ct p.contacts p.next _ tok acc htok hcap,
                heq]
              rfl
            · rcases hcase with ⟨h1, h2⟩ | ⟨t, h1, h2⟩
              · refine Or.inl ⟨?_, h2⟩
                rw [h1]; simp [stampedRun, List.append_assoc]
              · refine Or.inr ⟨t, ?_, h2⟩
                rw [h1]; simp [stampedRun, List.append_assoc]
      · have hcap2 : capAllows limit acc.length = false := by
          simpa using hcap
        exact ⟨acc, runOracle (p :: rest) ++ extra, 0,
          fetchPartition_cap_stop limit ct _ tok acc hcap2,
          Or.inr ⟨stampedRun ct (p :: rest), rfl, hcap2⟩⟩

theorem fetchPartitions_blocked (limit : Option Nat) (cts : List String)
    (acc : List Item) (oracle : List ApiResult)
    (h : capAllows limit acc.length = false) :
    ∃ c, fetchPartitions limit cts acc oracle = OuterOut.ok acc c := by
  induction cts generalizing oracle with
  | nil => exact ⟨0, rfl⟩
  | cons ct cts ih =>
      obtain ⟨c, hc⟩ := ih oracle
      refine ⟨0 + c, ?_⟩
      simp [fetchPartitions, fetchPartition_cap_stop limit ct oracle none acc h,
        hc, addOut]

theorem fetchPartitions_wf (limit : Option Nat) :
    ∀ (parts : List (String × List PageSpec)),
    (∀ pr ∈ parts, wfRun pr.2 = true) →
    ∀ (acc : List Item),
    ∃ acc2 c,
      fetchPartitions limit (parts.map Prod.fst) acc (oracleOf parts) =
        OuterOut.ok acc2 c ∧
      ((acc2 = acc ++ fullOf parts) ∨
       (∃ t, acc2 ++ t = acc ++ fullOf parts ∧
         capAllows limit acc2.length = false)) := by
  intro parts
  induction parts with
  | nil =>
      intro _ acc
      exact ⟨acc, 0, rfl, Or.inl (by simp [fullOf])⟩
  | cons pr ps ih =>
      intro hwf acc
      obtain ⟨ct, run⟩ := pr
      have hwf1 : wfRun run = true := hwf (ct, run) (by simp)
      have hwfs : ∀ q ∈ ps, wfRun q.2 = true := fun q hq => hwf q (by simp [hq])
      have horacle : oracleOf ((ct, run) :: ps) = runOracle run ++ oracleOf ps := by
        simp [oracleOf]
      obtain ⟨acc1, r1, m, heq, hcase⟩ :=
        fetchPartition_wfRun limit ct run hwf1 none rfl acc (oracleOf ps)
      rcases hcase with ⟨ha1, hr1⟩ | ⟨t, ha1, hcap⟩
      · subst ha1; subst hr1
        obtain ⟨acc2, c, heq2, hcase2⟩ := ih hwfs (acc ++ stampedRun ct run)
        refine ⟨acc2, m + c, ?_, ?_⟩
        · simp [fetchPartitions, horacle, heq, heq2, addOut]
        · rcases hcase2 with h | ⟨t2, h1, h2⟩
          · refine Or.inl ?_
            rw [h]; simp [fullOf, List.append_assoc]
          · refine Or.inr ⟨t2, ?_, h2⟩
            rw [h1]; simp [fullOf, List.append_assoc]
      · obtain ⟨c, hc⟩ := fetchPartitions_blocked limit (ps.map Prod.fst) acc1 r1 hcap
        refine ⟨acc1, m + c, ?_, Or.inr ⟨t ++ fullOf ps, ?_, hcap⟩⟩
        · simp [fetchPartitions, horacle, heq, hc, addOut]
        · rw [← List.append_assoc, ha1]
          simp [fullOf, List.append_assoc]

theorem pySlice_eq_of_partial (limit : Option Nat) (full acc2 : List Item)
    (h : acc2 = full ∨ (∃ t, acc2 ++ t = full ∧ capAllows limit acc2.length = false)) :
    pySlice limit acc2 = pySlice limit full := by
  rcases h with rfl | ⟨t, h1, h2⟩
  · rfl
  · cases limit with
    | none => simp [capAllows] at h2
    | some k =>
        cases k with
        | zero => simp [capAllows] at h2
        | succ k =>
            have hlen : k + 1 ≤ acc2.length := by
              simp [capAllows] at h2; omega
            subst h1
            simp [pySlice, List.take_append_eq_append_take,
              Nat.sub_eq_zero_of_le hlen]

theorem fetchPartition_unauthorized (ct : String) (rest : List ApiResult) :
    ∀ (pages : List PageSpec), (∀ p ∈ pages, tokCond p.next = true) →
    ∀ (tok : Option Json), tokCond tok = true → ∀ (acc : List Item),
    fetchPartition none ct (runOracle pages ++ ApiResult.unauthorized :: rest)
        tok acc =
      InnerOut.unauth (pages.length + 1) := by
  intro pages
  induction pages with
  | nil =>
      intro _ tok htok acc
      simp [runOracle, fetchPartition, htok, capAllows]
  | cons p ps ih =>
      intro hall tok htok acc
      have hp : tokCond p.next = true := hall p (by simp)
      have hps : ∀ q ∈ ps, tokCond q.next = true := fun q hq => hall q (by simp [hq])
      simp [runOracle, fetchPartition, htok, capAllows, toApi, bumpIn]
      have hrec := ih hps p.next hp (acc ++ p.contacts.map (stamp ct))
      simp [runOracle] at hrec
      simp [hrec, bumpIn]

theorem fetchPartition_calls (limit : Option Nat) (ct : String) :
    ∀ (oracle : List ApiResult) (tok : Option Json) (acc : List Item),
    (∀ a r c, fetchPartition limit ct oracle tok acc = InnerOut.done a r c →
        c + r.length = oracle.length) ∧
    (∀ c, fetchPartition limit ct oracle tok acc = InnerOut.unauth c →
        c ≤ oracle.length) ∧
    (∀ c, fetchPartition limit ct oracle tok acc = InnerOut.errOut c →
        c ≤ oracle.length + 1) := by
  intro oracle
  induction oracle with
  | nil =>
      intro tok acc
      by_cases hg : (tokCond tok && capAllows limit acc.length) = true
      · refine ⟨?_, ?_, ?_⟩
        · intro a r c h; simp only [fetchPartition, if_pos hg] at h; simp at h
        · intro c h; simp only [fetchPartition, if_pos hg] at h; simp at h
        · intro c h; simp only [fetchPartition, if_pos hg] at h
          injection h with h2; omega
      · refine ⟨?_, ?_, ?_⟩
        · intro a r c h; simp only [fetchPartition, if_neg hg] at h
          injection h with h1 h2 h3; subst h2; subst h3; simp
        · intro c h; simp only [fetchPartition, if_neg hg] at h; simp at h
        · intro c h; simp only [fetchPartition, if_neg hg] at h; simp at h
  | cons r rest ih =>
      intro tok acc
      by_cases hg : (tokCond tok && capAllows limit acc.length) = true
      · cases r with
        | unauthorized =>
            refine ⟨?_, ?_, ?_⟩
            · intro a r2 c h; simp only [fetchPartition, if_pos hg] at h; simp at h
            · intro c h; simp only [fetchPartition, if_pos hg] at h
              injection h with h2; simp [← h2]
            · intro c h; simp only [fetchPartition, if_pos hg] at h; simp at h
        | failure =>
            refine ⟨?_, ?_, ?_⟩
            · intro a r2 c h; simp only [fetchPartition, if_pos hg] at h; simp at h
            · intro c h; simp only [fetchPartition, if_pos hg] at h; simp at h
            · intro c h; simp only [fetchPartition, if_pos hg] at h
              injection h with h2; omega
        | page cs nxt =>
            have ihh := ih nxt (acc ++ cs.map (stamp ct))
            refine ⟨?_, ?_, ?_⟩
            · intro a r2 c h; simp only [fetchPartition, if_pos hg] at h
              cases hres : fetchPartition limit ct rest nxt (acc ++ cs.map (stamp ct)) with
              | done a3 r3 c3 =>
                  rw [hres] at h; simp [bumpIn] at h
                  obtain ⟨rfl, rfl, rfl⟩ := h
                  have := ihh.1 a3 r3 c3 hres
                  simp; omega
              | unauth c3 => rw [hres] at h; simp [bumpIn] at h
              | errOut c3 => rw [hres] at h; simp [bumpIn] at h
            · intro c h; simp only [fetchPartition, if_pos hg] at h
              cases hres : fetchPartition limit ct rest nxt (acc ++ cs.map (stamp ct)) with
              | done a3 r3 c3 => rw [hres] at h; simp [bumpIn] at h
              | unauth c3 =>
                  rw [hres] at h; simp [bumpIn] at h
                  have := ihh.2.1 c3 hres
                  simp [← h]; omega
              | errOut c3 => rw [hres] at h; simp [bumpIn] at h
            · intro c h; simp only [fetchPartition, if_pos hg] at h
              cases hres : fetchPartition limit ct rest nxt (acc ++ cs.map (stamp ct)) with
              | done a3 r3 c3 => rw [hres] at h; simp [bumpIn] at h
              | unauth c3 => rw [hres] at h; simp [bumpIn] at h
              | errOut c3 =>
                  rw [hres] at h; simp [bumpIn] at h
                  have := ihh.2.2 c3 hres
                  simp [← h]; omega
      · refine ⟨?_, ?_, ?_⟩
        · intro a r2 c h; simp only [fetchPartition, if_neg hg] at h
          injection h with h1 h2 h3; subst h2; subst h3; simp
        · intro c h; simp only [fetchPartition, if_neg hg] at h; simp at h
        · intro c h; simp only [fetchPartition, if_neg hg] at h; simp at h

theorem fetchPartitions_calls (limit : Option Nat) :
    ∀ (cts : List String) (acc : List Item) (oracle : List ApiResult),
    (∀ a c, fetchPartitions limit cts acc oracle = OuterOut.ok a c →
        c ≤ oracle.length) ∧
    (∀ c, fetchPartitions limit cts acc oracle = OuterOut.unauth c →
        c ≤ oracle.length) ∧
    (∀ c, fetchPartitions limit cts acc oracle = OuterOut.errOut c →
        c ≤ oracle.length + 1) := by
  intro cts
  induction cts with
  | nil =>
      intro acc oracle
      refine ⟨?_, ?_, ?_⟩
      · intro a c h; simp only [fetchPartitions] at h
        injection h with h1 h2; omega
      · intro c h; simp only [fetchPartitions] at h; simp at h
      · intro c h; simp only [fetchPartitions] at h; simp at h
  | cons ct cts ih =>
      intro acc oracle
      have hin := fetchPartition_calls limit ct oracle none acc
      have hunfold : fetchPartitions limit (ct :: cts) acc oracle =
          (match fetchPartition limit ct oracle none acc with
           | InnerOut.done acc2 rest calls =>
               addOut calls (fetchPartitions limit cts acc2 rest)
           | InnerOut.unauth calls => OuterOut.unauth calls
           | InnerOut.errOut calls => OuterOut.errOut calls) := by
        simp only [fetchPartitions]
      cases hres : fetchPartition limit ct oracle none acc with
      | done a1 r1 c1 =>
          have hlen := hin.1 a1 r1 c1 hres
          have heq : fetchPartitions limit (ct :: cts) acc oracle =
              addOut c1 (fetchPartitions limit cts a1 r1) := by
            rw [hunfold, hres]
          cases hrec : fetchPartitions limit cts a1 r1 with
          | ok a2 c2 =>
              have h2 : fetchPartitions limit (ct :: cts) acc oracle =
                  OuterOut.ok a2 (c1 + c2) := by rw [heq, hrec]; rfl
              have hb := (ih a1 r1).1 a2 c2 hrec
              refine ⟨?_, ?_, ?_⟩
              · intro a c h; rw [h2] at h
                injection h with e1 e2; omega
              · intro c h; rw [h2] at h; simp at h
              · intro c h; rw [h2] at h; simp at h
          | unauth c2 =>
              have h2 : fetchPartitions limit (ct :: cts) acc oracle =
                  OuterOut.unauth (c1 + c2) := by rw [heq, hrec]; rfl
              have hb := (ih a1 r1).2.1 c2 hrec
              refine ⟨?_, ?_, ?_⟩
              · intro a c h; rw [h2] at h; simp at h
              · intro c h; rw [h2] at h
                injection h with e2; omega
              · intro c h; rw [h2] at h; simp at h
          | errOut c2 =>
              have h2 : fetchPartitions limit (ct :: cts) acc oracle =
                  OuterOut.errOut (c1 + c2) := by rw [heq, hrec]; rfl
              have hb := (ih a1 r1).2.2 c2 hrec
              refine ⟨?_, ?_, ?_⟩
              · intro a c h; rw [h2] at h; simp at h
              · intro c h; rw [h2] at h; simp at h
              · intro c h; rw [h2] at h
                injection h with e2; omega
      | unauth c1 =>
          have hb := hin.2.1 c1 hres
          have h2 : fetchPartitions limit (ct :: cts) acc oracle =
              OuterOut.unauth c1 := by rw [hunfold, hres]
          refine ⟨?_, ?_, ?_⟩
          · intro a c h; rw [h2] at h; simp at h
          · intro c h; rw [h2] at h
            injection h with e2; omega
          · intro c h; rw [h2] at h; simp at h
      | errOut c1 =>
          have hb := hin.2.2 c1 hres
          have h2 : fetchPartitions limit (ct :: cts) acc oracle =
              OuterOut.errOut c1 := by rw [hunfold, hres]
          refine ⟨?_, ?_, ?_⟩
          · intro a c h; rw [h2] at h; simp at h
          · intro c h; rw [h2] at h; simp at h
          · intro c h; rw [h2] at h
            injection h with e2; omega

/-! ## Claims about the coordinators, the redirect resolver and
`get_contact_name` -/

/-- C5 (counterexample).  The claim (and the spec example) says the
partition fetch stops when the API returns no next-page token, and that
for pages `[{contacts:[a,b], next_page_token:"T1"}, {contacts:[c],
next_page_token: null}]` the refresh yields the three stamped contacts.
In the code the loop guard is `next_page_token or next_page_token is
None`, so a null or absent token keeps the loop running: a third call
is made (calls = 3) and, the API having delivered only two pages, the
refresh fails instead of returning the stamped `[a, b, c]`. -/
theorem c5_pagination_counterexample :
    contact_list_update none ["external"]
      [ApiResult.page [[("email", Json.str "a")], [("email", Json.str "b")]]
         (some (Json.str "T1")),
       ApiResult.page [[("email", Json.str "c")]] none]
      = ⟨Except.error UpdErr.updateFailed, 3⟩ ∧
    (Except.error UpdErr.updateFailed : Except UpdErr (List Item)) ≠ Except.ok
      [[("email", Json.str "a"), ("contact_type", Json.str "external")],
       [("email", Json.str "b"), ("contact_type", Json.str "external")],
       [("email", Json.str "c"), ("contact_type", Json.str "external")]] :=
  ⟨rfl, by simp⟩

/-- C5 (amended).  For every refresh over partitions whose page runs
are complete (each run non-empty, every page before the last carrying a
token value the loop guard accepts, the last page carrying a falsy
non-null token such as the empty string): the result is, for each
partition in order, the concatenation of the contacts of its pages with
every item stamped with that partition as `contact_type`; fetching for
a partition stops when the API returns the empty-string next-page token
(not when the token is null or absent); and with a cap configured the
final combined list is truncated to the cap length
(`contacts[:limit]`). -/
theorem c5_pagination_amended (limit : Option Nat)
    (parts : List (String × List PageSpec))
    (hwf : ∀ pr ∈ parts, wfRun pr.2 = true) :
    (contact_list_update limit (parts.map Prod.fst) (oracleOf parts)).result =
      Except.ok (pySlice limit (fullOf parts)) := by
  obtain ⟨acc2, c, heq, hcase⟩ := fetchPartitions_wf limit parts hwf []
  have hcase2 : acc2 = fullOf parts ∨
      (∃ t, acc2 ++ t = fullOf parts ∧ capAllows limit acc2.length = false) := by
    simpa using hcase
  simp [contact_list_update, heq,
    pySlice_eq_of_partial limit (fullOf parts) acc2 hcase2]

/-- C5 (witness).  The amended theorem at the corrected spec example:
partition `external`, pages `[{[a,b], "T1"}, {[c], ""}]`, no cap; the
result is `[a, b, c]`, each stamped `contact_type = external`. -/
theorem c5_pagination_witness :
    (∀ pr ∈ [("external",
        [PageSpec.mk [[("email", Json.str "a")], [("email", Json.str "b")]]
           (some (Json.str "T1")),
         PageSpec.mk [[("email", Json.str "c")]] (some (Json.str ""))])],
        wfRun pr.2 = true) ∧
    (contact_list_update none
      ([("external",
        [PageSpec.mk [[("email", Json.str "a")], [("email", Json.str "b")]]
           (some (Json.str "T1")),
         PageSpec.mk [[("email", Json.str "c")]] (some (Json.str ""))])].map
           Prod.fst)
      (oracleOf [("external",
        [PageSpec.mk [[("email", Json.str "a")], [("email", Json.str "b")]]
           (some (Json.str "T1")),
         PageSpec.mk [[("email", Json.str "c")]] (some (Json.str ""))])])).result
      = Except.ok
      [[("email", Json.str "a"), ("contact_type", Json.str "external")],
       [("email", Json.str "b"), ("contact_type", Json.str "external")],
       [("email", Json.str "c"), ("contact_type", Json.str "external")]] := by
  refine ⟨by decide, ?_⟩
  rw [c5_pagination_amended none _ (by decide)]
  rfl

/-- C6 (confirmed).  If the API answers any page call of the refresh
with an authorization failure, even after pages were already
accumulated, the coordinator abandons the fetch and the refresh returns
the empty list (the `except HTTPUnauthorized: return []` branch), not
the partial accumulation. -/
theorem c6_unauthorized_abandons (ct : String) (pages : List PageSpec)
    (rest : List ApiResult) (hall : ∀ p ∈ pages, tokCond p.next = true) :
    (contact_list_update none [ct]
      (runOracle pages ++ ApiResult.unauthorized :: rest)).result =
      Except.ok [] := by
  have h := fetchPartition_unauthorized ct rest pages hall none rfl []
  simp [contact_list_update, fetchPartitions, h]

/-- C6 (witness).  The spec example: one delivered page `[a, b]` with
token `T1`, then an authorization error on the second call; the refresh
cycle returns `[]`, not `[a, b]`. -/
theorem c6_unauthorized_witness :
    (∀ p ∈ [PageSpec.mk [[("email", Json.str "a")], [("email", Json.str "b")]]
        (some (Json.str "T1"))], tokCond p.next = true) ∧
    (contact_list_update none ["external"]
      (runOracle [PageSpec.mk
          [[("email", Json.str "a")], [("email", Json.str "b")]]
          (some (Json.str "T1"))] ++
        ApiResult.unauthorized :: [])).result = Except.ok [] :=
  ⟨by decide,
   c6_unauthorized_abandons "external"
     [PageSpec.mk [[("email", Json.str "a")], [("email", Json.str "b")]]
        (some (Json.str "T1"))] [] (by decide)⟩

/-- C7 (counterexample).  The claim says the pagination loop exits once
the API returns a response without a next-page token.  At a single
partition with one delivered page whose `next_page_token` is absent,
the loop does not exit: a second call is attempted (calls = 2, not 1)
and the refresh fails instead of returning the delivered page. -/
theorem c7_termination_counterexample :
    contact_list_update none ["external"]
      [ApiResult.page [[("email", Json.str "a")]] none]
      = ⟨Except.error UpdErr.updateFailed, 2⟩ ∧
    (Except.error UpdErr.updateFailed : Except UpdErr (List Item)) ≠ Except.ok
      [[("email", Json.str "a"), ("contact_type", Json.str "external")]] :=
  ⟨rfl, by simp⟩

/-- C7 (amended).  Against any finite oracle of API responses the
refresh terminates after at most `oracle.length + 1` call attempts (a
call the oracle cannot answer is a transport failure that ends the
refresh); and the per-partition loop exits after one call when the API
returns the empty-string next-page token — but not, as the claim
stated, when the token is absent. -/
theorem c7_termination_amended :
    (∀ (limit : Option Nat) (cts : List String) (oracle : List ApiResult),
        (contact_list_update limit cts oracle).calls ≤ oracle.length + 1)
    ∧ (∀ (ct : String) (cs : List Item) (rest : List ApiResult),
        contact_list_update none [ct]
          (ApiResult.page cs (some (Json.str "")) :: rest)
          = ⟨Except.ok (cs.map (stamp ct)), 1⟩) := by
  constructor
  · intro limit cts oracle
    have h := fetchPartitions_calls limit cts [] oracle
    unfold contact_list_update
    cases hres : fetchPartitions limit cts [] oracle with
    | ok a c => have := h.1 a c hres; simpa using Nat.le_succ_of_le this
    | unauth c => have := h.2.1 c hres; simpa using Nat.le_succ_of_le this
    | errOut c => have := h.2.2 c hres; simpa using this
  · intro ct cs rest
    have hstep := fetchPartition_step none ct cs (some (Json.str "")) rest none []
      rfl rfl
    simp only [List.nil_append] at hstep
    have hstop := fetchPartition_tok_stop none ct rest (some (Json.str ""))
      (cs.map (stamp ct)) rfl
    simp [contact_list_update, fetchPartitions, hstep, hstop, bumpIn, addOut,
      pySlice]

/-- C8 (confirmed).  The redirect URI is the URL resolved at the moment
of access (computed afresh from the candidates the host sees at that
moment; the property body calls `get_url` on every access and stores
nothing), with `allow_internal=False` and `prefer_cloud=True` — a
cloud-routed address wins over a direct external one and an
internal-only configuration resolves nothing — concatenated with the
fixed callback path suffix. -/
theorem c8_redirect_uri_resolution (cfg : UrlCandidates) :
    (∀ base, get_url cfg false true = some base →
        redirect_uri cfg = some (base ++ AUTH_CALLBACK_PATH))
    ∧ (∀ c, cfg.cloud = some c →
        redirect_uri cfg = some (c ++ AUTH_CALLBACK_PATH))
    ∧ (cfg.cloud = none → cfg.external = none → redirect_uri cfg = none) := by
  refine ⟨?_, ?_, ?_⟩
  · intro base h
    simp [redirect_uri, h]
  · intro c h
    simp [redirect_uri, get_url, h, Option.orElse]
  · intro h1 h2
    simp [redirect_uri, get_url, h1, h2, Option.orElse]

/-- C8 (witness).  With a relay-routed address, a direct external
address and an internal address all configured, the resolved redirect
URI is the relay-routed address plus the fixed callback path. -/
theorem c8_redirect_uri_witness :
    UrlCandidates.cloud
        ⟨some "https://relay.example", some "https://direct.example",
         some "http://10.0.0.5:8123"⟩ = some "https://relay.example" ∧
    redirect_uri
        ⟨some "https://relay.example", some "https://direct.example",
         some "http://10.0.0.5:8123"⟩
      = some ("https://relay.example" ++ AUTH_CALLBACK_PATH) :=
  ⟨rfl,
   (c8_redirect_uri_resolution
       ⟨some "https://relay.example", some "https://direct.example",
        some "http://10.0.0.5:8123"⟩).2.1 "https://relay.example" rfl⟩

/-- C9 (confirmed).  Both coordinators convert every fetch exception
into the `UpdateFailed` variant instead of propagating it raw (the
result of a refresh is always either a success or `UpdateFailed`,
never a raw error); under the host framework semantics a failed
refresh keeps the previous data; and a successful profile refresh is
exactly one API call returning the fetched profile whole. -/
theorem c9_poll_failure_conversion :
    (∀ p, user_profile_update (Except.ok p) = ⟨Except.ok p, 1⟩)
    ∧ (∀ e, user_profile_update (Except.error e) =
        ⟨Except.error UpdErr.updateFailed, 1⟩)
    ∧ (∀ resp, (user_profile_update resp).calls = 1)
    ∧ (∀ (limit : Option Nat) (cts : List String) (oracle : List ApiResult),
        (∃ d, (contact_list_update limit cts oracle).result = Except.ok d)
        ∨ (contact_list_update limit cts oracle).result =
            Except.error UpdErr.updateFailed)
    ∧ (∀ prev, applyRefresh prev (Except.error UpdErr.updateFailed) =
        (prev, false))
    ∧ (∀ prev d, applyRefresh prev (Except.ok d) = (some d, true)) := by
  refine ⟨fun p => rfl, fun e => rfl, fun resp => ?_, fun limit cts oracle => ?_,
    fun prev => rfl, fun prev d => rfl⟩
  · cases resp <;> rfl
  · unfold contact_list_update
    cases fetchPartitions limit cts [] oracle with
    | ok a c => exact Or.inl ⟨pySlice limit a, rfl⟩
    | unauth c => exact Or.inl ⟨[], rfl⟩
    | errOut c => exact Or.inr rfl

/-- C10 (confirmed).  For a contact mapping with string values for
`first_name`, `last_name` and `email` (a Python string is falsy exactly
when empty): when both name parts are falsy the result is exactly the
email; otherwise it is each present name part followed by one space,
then the email in parentheses; and the email always appears verbatim in
the result. -/
theorem c10_contact_name_format (f l e : String) :
    get_contact_name ⟨f, l, e⟩ =
      (if f = "" ∧ l = "" then e
       else if l = "" then f ++ " " ++ "(" ++ e ++ ")"
       else if f = "" then l ++ " " ++ "(" ++ e ++ ")"
       else f ++ " " ++ l ++ " " ++ "(" ++ e ++ ")")
    ∧ ∃ pre post, get_contact_name ⟨f, l, e⟩ = pre ++ e ++ post := by
  constructor
  · by_cases hf : f = "" <;> by_cases hl : l = "" <;>
      simp [get_contact_name, hf, hl, append_space_ne_empty]
  · by_cases hf : f = "" <;> by_cases hl : l = ""
    · exact ⟨"", "", by simp [get_contact_name, hf, hl]⟩
    · exact ⟨l ++ " " ++ "(", ")",
        by simp [get_contact_name, hf, hl, append_space_ne_empty]⟩
    · exact ⟨f ++ " " ++ "(", ")",
        by simp [get_contact_name, hf, hl, append_space_ne_empty]⟩
    · exact ⟨f ++ " " ++ l ++ " " ++ "(", ")",
        by simp [get_contact_name, hf, hl, append_space_ne_empty]⟩
